import Mathlib

/-!
Shallow embedding of the chip8-rs emulator core (src/chip8/src/{cpu,memory,
display,input,emulator}.rs) and verification of its specification claims.

Modelling conventions:
* Machine integers are `Nat`.  Register values are u8 bytes (< 256); byte
  reads apply `% 256`.  Where the Rust source wraps deliberately
  (`wrapping_add`, `overflowing_add`, `overflowing_sub`, `<<`), the model
  wraps with an explicit `% 2^w`.  Where the Rust source uses a bare
  checked operator whose overflow is an error condition (debug-build
  panic), the model is partial (`Option`/`Except`), with `none`/`.error`
  standing for the panic.
* The fixed-size Rust arrays (registers, stack, RAM, screen, keys) are
  modelled as total functions `Nat → _`; all indices used by the claims
  stay inside the arrays' bounds.  The program counter and the address
  register are u16 values; in every scenario the claims quantify over they
  stay far below 2^16, so their arithmetic is modelled on plain `Nat`.
* `rand` is an oracle byte standing for the host RNG consumed by RND.
-/

namespace Chip8

/-- Machine state: the union of the four components owned by the emulator
(cpu, memory, display, input in the Rust source), which share state through
the orchestrator. -/
structure Machine where
  v : Nat → Nat
  i : Nat
  stack : Nat → Nat
  pc : Nat
  sp : Nat
  ram : Nat → Nat
  delay : Nat
  sound : Nat
  screen : Nat → Bool
  keys : Nat → Bool
  rand : Nat

/-- Panic or surfaced failure of an instruction cycle.  `unsupportedOpcode`
models the `unimplemented!` fallback arm of `Emulator::execute`;
`arithOverflow` models a debug-build overflow panic of a checked operator;
`stackBounds` models an out-of-bounds stack index or stack-pointer
underflow. -/
inductive EmuPanic where
  | unsupportedOpcode
  | arithOverflow
  | stackBounds
  deriving DecidableEq, Repr

/-- Pointwise update of a function-modelled array. -/
def updF (f : Nat → Nat) (k newVal : Nat) : Nat → Nat :=
  fun p => if p = k then newVal else f p

/-- Pointwise update of a boolean array. -/
def updB (f : Nat → Bool) (k : Nat) (newVal : Bool) : Nat → Bool :=
  fun p => if p = k then newVal else f p

/-- First nibble of an opcode: `(operation & 0xF000) >> 12`. -/
def nib1 (op : Nat) : Nat := op / 4096 % 16
/-- Second nibble of an opcode: `(operation & 0x0F00) >> 8`. -/
def nib2 (op : Nat) : Nat := op / 256 % 16
/-- Third nibble of an opcode: `(operation & 0x00F0) >> 4`. -/
def nib3 (op : Nat) : Nat := op / 16 % 16
/-- Fourth nibble of an opcode: `operation & 0x000F`. -/
def nib4 (op : Nat) : Nat := op % 16
/-- Low 12 bits of an opcode: `operation & 0xFFF`. -/
def nnnOf (op : Nat) : Nat := op % 4096
/-- Low byte of an opcode: `(operation & 0xFF) as u8`. -/
def nnOf (op : Nat) : Nat := op % 256

/-- Memory::fetch_byte — `self.ram[index]`; RAM cells are u8. -/
def fetchByte (s : Machine) (a : Nat) : Nat := s.ram a % 256

/-- Memory::fetch_word — big-endian 16-bit read
`(ram[i] as u16) << 8 | ram[i+1]`. -/
def fetchWord (s : Machine) (a : Nat) : Nat :=
  fetchByte s a * 256 + fetchByte s (a + 1)

/-- CPU::op_ret — `pop` decrements the stack pointer (u16, underflow
panics) and loads the program counter from the popped slot. -/
def opRet (s : Machine) : Except EmuPanic Machine :=
  if s.sp = 0 then .error .stackBounds
  else .ok { s with sp := s.sp - 1, pc := s.stack (s.sp - 1) }

/-- CPU::op_call — `push` stores the program counter at `stack[sp]`
(indexing panics for sp ≥ 16), increments the stack pointer, then the
program counter becomes `operation & 0xFFF`. -/
def opCall (s : Machine) (op : Nat) : Except EmuPanic Machine :=
  if s.sp < 16 then
    .ok { s with stack := updF s.stack s.sp s.pc, sp := s.sp + 1,
                 pc := nnnOf op }
  else .error .stackBounds

/-- CPU::op_jmp — `program_counter = operation & 0xFFF`. -/
def opJmp (s : Machine) (op : Nat) : Machine :=
  { s with pc := nnnOf op }

/-- CPU::op_reg_jmp — `program_counter = V0 + (operation & 0xFFF)`. -/
def opRegJmp (s : Machine) (op : Nat) : Machine :=
  { s with pc := s.v 0 + nnnOf op }

/-- CPU::op_se — skip (pc += 2) when `Vx == nn`. -/
def opSe (s : Machine) (op x : Nat) : Machine :=
  if s.v x = nnOf op then { s with pc := s.pc + 2 } else s

/-- CPU::op_sne — the source tests `self.v_registers[x] == nn` (the same
condition as op_se) even though its own doc comment reads "Skip next
instruction if register VX != NN". -/
def opSne (s : Machine) (op x : Nat) : Machine :=
  if s.v x = nnOf op then { s with pc := s.pc + 2 } else s

/-- CPU::op_reg_se — skip when `Vx == Vy`. -/
def opRegSe (s : Machine) (x y : Nat) : Machine :=
  if s.v x = s.v y then { s with pc := s.pc + 2 } else s

/-- CPU::op_reg_sne — skip when `Vx != Vy`. -/
def opRegSne (s : Machine) (x y : Nat) : Machine :=
  if s.v x ≠ s.v y then { s with pc := s.pc + 2 } else s

/-- CPU::op_ld — `Vx = nn`. -/
def opLd (s : Machine) (op x : Nat) : Machine :=
  { s with v := updF s.v x (nnOf op) }

/-- CPU::op_reg_ld — `Vx = Vy`. -/
def opRegLd (s : Machine) (x y : Nat) : Machine :=
  { s with v := updF s.v x (s.v y) }

/-- CPU::op_add — the source line is `self.v_registers[x] += nn`, a bare
checked u8 addition: its overflow is an error condition in Rust (panic in
debug builds), unlike the deliberate `overflowing_add`/`wrapping_add`
used by the other arithmetic handlers, so the model is partial and `none`
stands for the overflow panic. -/
def opAdd (s : Machine) (op x : Nat) : Option Machine :=
  if s.v x + nnOf op < 256 then
    some { s with v := updF s.v x (s.v x + nnOf op) }
  else none

/-- CPU::op_reg_add — `overflowing_add` of the two byte registers; Vx
receives the wrapped sum, then VF receives the carry (so a flag write to
VF overwrites a result written there). -/
def opRegAdd (s : Machine) (x y : Nat) : Machine :=
  let sum := s.v x + s.v y
  let newVf := if 256 ≤ sum then 1 else 0
  { s with v := updF (updF s.v x (sum % 256)) 15 newVf }

/-- CPU::op_reg_sub — `overflowing_sub`: with `reverse` false Vx receives
`Vx - Vy` wrapped and the borrow is `Vx < Vy`; with `reverse` true Vx
receives `Vy - Vx` wrapped and the borrow is `Vy < Vx`.  VF is then set
to 0 on borrow and 1 otherwise. -/
def opRegSub (s : Machine) (x y : Nat) (reverse : Bool) : Machine :=
  let newVx := if reverse then (s.v y + 256 - s.v x) % 256
               else (s.v x + 256 - s.v y) % 256
  let borrow := if reverse then s.v y < s.v x else s.v x < s.v y
  let newVf := if borrow then 0 else 1
  { s with v := updF (updF s.v x newVx) 15 newVf }

/-- CPU::op_reg_or — `Vx |= Vy`. -/
def opRegOr (s : Machine) (x y : Nat) : Machine :=
  { s with v := updF s.v x (s.v x ||| s.v y) }

/-- CPU::op_shift — right: VF gets `Vx & 1` and Vx is shifted right;
left: VF gets bit 7 of Vx and Vx is shifted left with u8 truncation. -/
def opShift (s : Machine) (x : Nat) (right : Bool) : Machine :=
  let bit := if right then s.v x % 2 else s.v x / 128 % 2
  let newVx := if right then s.v x / 2 else s.v x * 2 % 256
  { s with v := updF (updF s.v x newVx) 15 bit }

/-- CPU::op_i_ld — `I = operation & 0xFFF`. -/
def opILd (s : Machine) (op : Nat) : Machine :=
  { s with i := nnnOf op }

/-- CPU::op_rnd — `Vx = random_byte & nn`; the random byte comes from the
state's RNG oracle. -/
def opRnd (s : Machine) (op x : Nat) : Machine :=
  { s with v := updF s.v x ((s.rand % 256) &&& nnOf op) }

/-- CPU::op_ld_dt — `Vx = delay_timer`. -/
def opLdDt (s : Machine) (x : Nat) : Machine :=
  { s with v := updF s.v x s.delay }

/-- CPU::op_add_i — `I = I.wrapping_add(Vx)`, 16-bit wraparound. -/
def opAddI (s : Machine) (x : Nat) : Machine :=
  { s with i := (s.i + s.v x) % 65536 }

/-- CPU::op_ld_font — `I = Vx * 5`. -/
def opLdFont (s : Machine) (x : Nat) : Machine :=
  { s with i := s.v x * 5 }

/-- Memory::op_ld_dt — `delay_timer = Vx`. -/
def opSetDt (s : Machine) (x : Nat) : Machine :=
  { s with delay := s.v x }

/-- Memory::op_ld_st — `sound_timer = Vx`. -/
def opSetSt (s : Machine) (x : Nat) : Machine :=
  { s with sound := s.v x }

/-- Memory::op_str — for idx in 0..=x, `ram[I + idx] = V_idx`. -/
def opStr (s : Machine) (x : Nat) : Machine :=
  let ram' := (List.range (x + 1)).foldl
    (fun m idx => updF m (s.i + idx) (s.v idx)) s.ram
  { s with ram := ram' }

/-- Memory::op_ld — for idx in 0..=x, `V_idx = ram[I + idx]`. -/
def opLdMem (s : Machine) (x : Nat) : Machine :=
  let v' := (List.range (x + 1)).foldl
    (fun f idx => updF f idx (fetchByte s (s.i + idx))) s.v
  { s with v := v' }

/-- Memory::tick_timers — the delay timer is decremented when nonzero; the
sound timer branch hits `unimplemented!("Beeping not implemented yet.")`
when the sound timer equals 1 (a process abort, modelled as `none`) and
otherwise decrements the nonzero sound timer. -/
def tickTimers (s : Machine) : Option Machine :=
  let s' := if 0 < s.delay then { s with delay := s.delay - 1 } else s
  if 0 < s'.sound then
    if s'.sound = 1 then none
    else some { s' with sound := s'.sound - 1 }
  else some s'

/-- Row-major pixel index after toroidal wrap, as computed in
Display::op_drw: `x = (x_coord + x_line) % 64`, `y = (y_coord + y_line)
% 32`, `idx = x + 64 * y`. -/
def pixIdx (x y c r : Nat) : Nat :=
  (x + c) % 64 + 64 * ((y + r) % 32)

/-- Sequence of screen indices toggled by Display::op_drw, in loop order:
for `y_line in 0..num_rows` the sprite byte is `ram[I + y_line]`, and for
`x_line in 0..8` the bit `pixels & (0x80 >> x_line)` (bit `7 - x_line`)
selects whether the wrapped pixel index is toggled.  The loop body never
writes RAM or the I register, so the toggle sequence is fixed up front. -/
def toggleList (s : Machine) (x y rows : Nat) : List Nat :=
  (List.range rows).flatMap (fun r =>
    (List.range 8).filterMap (fun c =>
      if (fetchByte s (s.i + r)).testBit (7 - c) then some (pixIdx x y c r)
      else none))

/-- Loop body of Display::op_drw for one toggled index:
`flipped |= screen[idx]; screen[idx] ^= true`. -/
def drawStep (acc : (Nat → Bool) × Bool) (idx : Nat) : (Nat → Bool) × Bool :=
  (updB acc.1 idx (!acc.1 idx), acc.2 || acc.1 idx)

/-- Display::op_drw — runs the toggle loop over the sprite and then writes
VF: 1 if any toggle turned a set pixel off, else 0. -/
def opDrw (s : Machine) (x y rows : Nat) : Machine :=
  let res := (toggleList s x y rows).foldl drawStep (s.screen, false)
  { s with screen := res.1, v := updF s.v 15 (if res.2 then 1 else 0) }

/-- Display::op_cls and Display::reset — all pixels false. -/
def opCls (s : Machine) : Machine :=
  { s with screen := fun _ => false }

/-- Input::op_skp — reads `Vx` as a key index; with `reverse` false the
skip happens when the key is pressed, with `reverse` true when it is not
pressed. -/
def opSkp (s : Machine) (x : Nat) (reverse : Bool) : Machine :=
  let key := s.keys (s.v x)
  if (!reverse && key) || (reverse && !key) then { s with pc := s.pc + 2 }
  else s

/-- Ascending scan of Input::op_ld_wait: `for i in 0..16 { if keys[i] {
... break } }`, returning the first pressed index.  `fuel` counts the
remaining iterations. -/
def scanKeys (keys : Nat → Bool) : Nat → Nat → Option Nat
  | 0, _ => none
  | fuel + 1, idx => if keys idx then some idx else scanKeys keys fuel (idx + 1)

/-- Input::op_ld_wait — the first pressed key index (ascending scan) is
written into Vx; if no key is pressed the program counter is rewound by 2
so the same instruction is fetched again. -/
def opLdWait (s : Machine) (x : Nat) : Machine :=
  match scanKeys s.keys 16 0 with
  | some idx => { s with v := updF s.v x idx }
  | none => { s with pc := s.pc - 2 }

/-- Dispatch arm of the ordered match in Emulator::execute, one
constructor per handler plus `invalid` for the `unimplemented!` fallback. -/
inductive ExecArm where
  | nop | cls | ret | jmp | call | se | sne | regSe | ld | add
  | regOr | regAdd | regSub | shr | regSubRev | shl | regLd | regSne
  | iLd | regJmp | rnd | drw | skp | sknp | ldDt | ldWait | setDt
  | setSt | addI | ldFont | str | ldMem | invalid
  deriving DecidableEq, Repr

/-- Decode skeleton of Emulator::execute: the ordered Rust `match` over
the four nibbles, arm for arm (including the `(8, _, _, _)` catch-all
that follows the specific 8-family arms). -/
def decodeArm (op : Nat) : ExecArm :=
  match nib1 op, nib2 op, nib3 op, nib4 op with
  | 0, 0, 0, 0 => .nop
  | 0, 0, 0xE, 0 => .cls
  | 0, 0, 0xE, 0xE => .ret
  | 1, _, _, _ => .jmp
  | 2, _, _, _ => .call
  | 3, _, _, _ => .se
  | 4, _, _, _ => .sne
  | 5, _, _, 0 => .regSe
  | 6, _, _, _ => .ld
  | 7, _, _, _ => .add
  | 8, _, _, 1 => .regOr
  | 8, _, _, 4 => .regAdd
  | 8, _, _, 5 => .regSub
  | 8, _, _, 6 => .shr
  | 8, _, _, 7 => .regSubRev
  | 8, _, _, 0xE => .shl
  | 8, _, _, _ => .regLd
  | 9, _, _, _ => .regSne
  | 0xA, _, _, _ => .iLd
  | 0xB, _, _, _ => .regJmp
  | 0xC, _, _, _ => .rnd
  | 0xD, _, _, _ => .drw
  | 0xE, _, 9, 0xE => .skp
  | 0xE, _, 0xA, 1 => .sknp
  | 0xF, _, 0, 7 => .ldDt
  | 0xF, _, 0, 0xA => .ldWait
  | 0xF, _, 1, 5 => .setDt
  | 0xF, _, 1, 8 => .setSt
  | 0xF, _, 1, 0xE => .addI
  | 0xF, _, 2, 9 => .ldFont
  | 0xF, _, 5, 5 => .str
  | 0xF, _, 6, 5 => .ldMem
  | _, _, _, _ => .invalid

/-- Handler call for a dispatch arm, with the operand extraction done at
the call sites of Emulator::execute (`digit2`/`digit3` as register
indices, register values as draw coordinates, `digit4` as sprite
height). -/
def applyArm (s : Machine) (op : Nat) : ExecArm → Except EmuPanic Machine
  | .nop => .ok s
  | .cls => .ok (opCls s)
  | .ret => opRet s
  | .jmp => .ok (opJmp s op)
  | .call => opCall s op
  | .se => .ok (opSe s op (nib2 op))
  | .sne => .ok (opSne s op (nib2 op))
  | .regSe => .ok (opRegSe s (nib2 op) (nib3 op))
  | .ld => .ok (opLd s op (nib2 op))
  | .add => match opAdd s op (nib2 op) with
            | some s' => .ok s'
            | none => .error .arithOverflow
  | .regOr => .ok (opRegOr s (nib2 op) (nib3 op))
  | .regAdd => .ok (opRegAdd s (nib2 op) (nib3 op))
  | .regSub => .ok (opRegSub s (nib2 op) (nib3 op) false)
  | .shr => .ok (opShift s (nib2 op) true)
  | .regSubRev => .ok (opRegSub s (nib2 op) (nib3 op) true)
  | .shl => .ok (opShift s (nib2 op) false)
  | .regLd => .ok (opRegLd s (nib2 op) (nib3 op))
  | .regSne => .ok (opRegSne s (nib2 op) (nib3 op))
  | .iLd => .ok (opILd s op)
  | .regJmp => .ok (opRegJmp s op)
  | .rnd => .ok (opRnd s op (nib2 op))
  | .drw => .ok (opDrw s (s.v (nib2 op)) (s.v (nib3 op)) (nib4 op))
  | .skp => .ok (opSkp s (nib2 op) false)
  | .sknp => .ok (opSkp s (nib2 op) true)
  | .ldDt => .ok (opLdDt s (nib2 op))
  | .ldWait => .ok (opLdWait s (nib2 op))
  | .setDt => .ok (opSetDt s (nib2 op))
  | .setSt => .ok (opSetSt s (nib2 op))
  | .addI => .ok (opAddI s (nib2 op))
  | .ldFont => .ok (opLdFont s (nib2 op))
  | .str => .ok (opStr s (nib2 op))
  | .ldMem => .ok (opLdMem s (nib2 op))
  | .invalid => .error .unsupportedOpcode

/-- Emulator::execute — decode the nibbles and dispatch. -/
def execute (s : Machine) (op : Nat) : Except EmuPanic Machine :=
  applyArm s op (decodeArm op)

/-- Emulator::fetch — big-endian word at the program counter, then the
program counter advances by 2. -/
def fetch (s : Machine) : Nat × Machine :=
  (fetchWord s s.pc, { s with pc := s.pc + 2 })

/-- Emulator::tick — fetch then execute. -/
def tick (s : Machine) : Except EmuPanic Machine :=
  let res := fetch s
  execute res.2 res.1

/-- FONT_SET from display.rs: 16 glyphs of 5 bytes. -/
def fontSet : List Nat :=
  [0xF0, 0x90, 0x90, 0x90, 0xF0,
   0x20, 0x60, 0x20, 0x20, 0x70,
   0xF0, 0x10, 0xF0, 0x80, 0xF0,
   0xF0, 0x10, 0xF0, 0x10, 0xF0,
   0x90, 0x90, 0xF0, 0x10, 0x10,
   0xF0, 0x80, 0xF0, 0x10, 0xF0,
   0xF0, 0x80, 0xF0, 0x90, 0xF0,
   0xF0, 0x10, 0x20, 0x40, 0x40,
   0xF0, 0x90, 0xF0, 0x90, 0xF0,
   0xF0, 0x90, 0xF0, 0x10, 0xF0,
   0xF0, 0x90, 0xF0, 0x90, 0x90,
   0xE0, 0x90, 0xE0, 0x90, 0xE0,
   0xF0, 0x80, 0x80, 0x80, 0xF0,
   0xE0, 0x90, 0x90, 0x90, 0xE0,
   0xF0, 0x80, 0xF0, 0x80, 0xF0,
   0xF0, 0x80, 0xF0, 0x80, 0x80]

/-- Initial machine state after construction/reset: zeroed registers and
arrays, program counter 0x200, and the font set in RAM bytes [0, 80). -/
def initState : Machine where
  v := fun _ => 0
  i := 0
  stack := fun _ => 0
  pc := 0x200
  sp := 0
  ram := fun a => (fontSet.getD a 0)
  delay := 0
  sound := 0
  screen := fun _ => false
  keys := fun _ => false
  rand := 0

/-- Written from the claim's words (refinement side of C8): pixel `p` is
the wrapped target of some set sprite bit in the `rows`-byte sprite at
address I, drawn at `(x, y)`. -/
def spriteHits (s : Machine) (x y rows p : Nat) : Prop :=
  ∃ r < rows, ∃ c < 8,
    (fetchByte s (s.i + r)).testBit (7 - c) = true ∧ pixIdx x y c r = p

instance (s : Machine) (x y rows p : Nat) : Decidable (spriteHits s x y rows p) := by
  unfold spriteHits; infer_instance

/-- Written from the amended C7's words: some set sprite bit targets a
pixel that is clear in the current buffer (the condition under which a
draw records no collision at that bit but a repeated draw does). -/
def flipsOffTarget (s : Machine) (x y rows : Nat) : Prop :=
  ∃ r < rows, ∃ c < 8,
    (fetchByte s (s.i + r)).testBit (7 - c) = true ∧
      s.screen (pixIdx x y c r) = false

instance (s : Machine) (x y rows : Nat) : Decidable (flipsOffTarget s x y rows) := by
  unfold flipsOffTarget; infer_instance

/-- Concrete machine whose register V3 holds 5, for exercising SNE. -/
def sSne : Machine := { initState with v := updF initState.v 3 5 }

/-- Concrete machine whose register V0 holds 255, for exercising
ADD-with-immediate at the overflow boundary. -/
def sAddOv : Machine := { initState with v := updF initState.v 0 255 }

/-- Concrete machine for the draw claims: a one-byte sprite `0x80` at
address 0x300 (I = 0x300) and the single screen pixel 0 set. -/
def sDrwC : Machine :=
  { initState with
    i := 0x300
    ram := fun a => if a = 0x300 then 0x80 else 0
    screen := fun p => p == 0 }

/-- Concrete machine for the wrap example: a one-byte sprite `0xFF` at
address 0x300 (I = 0x300) on a cleared screen. -/
def sWrap : Machine :=
  { initState with
    i := 0x300
    ram := fun a => if a = 0x300 then 0xFF else 0 }

/-- Concrete machine whose program at 0x200 is the single key-wait
instruction `F30A` (LD V3, K). -/
def sWait : Machine :=
  { initState with
    ram := fun a => if a = 0x200 then 0xF3 else if a = 0x201 then 0x0A else 0 }

/-- Variant of `sWait` with keys 5 and 7 pressed. -/
def sWaitK : Machine := { sWait with keys := fun k => k == 5 || k == 7 }

/-- Screen component of the draw fold: each toggled index flips the pixel,
so the final pixel value is the initial one XORed with the parity of the
number of toggles at that index. -/
theorem foldl_drawStep_fst (L : List Nat) :
    ∀ (s0 : Nat → Bool) (b : Bool) (p : Nat),
      (L.foldl drawStep (s0, b)).1 p =
        xor (s0 p) (decide (List.count p L % 2 = 1)) := by
  induction L with
  | nil => intro s0 b p; simp
  | cons a L ih =>
    intro s0 b p
    rw [List.foldl_cons]
    rw [show drawStep (s0, b) a = (updB s0 a (!s0 a), b || s0 a) from rfl]
    rw [ih]
    by_cases hpa : p = a
    · subst hpa
      have hc : List.count p (p :: L) = List.count p L + 1 := by
        simp [List.count_cons]
      rw [hc, updB, if_pos rfl]
      by_cases ho : List.count p L % 2 = 1
      · have : (List.count p L + 1) % 2 = 0 := by omega
        simp [ho, this]
      · have : (List.count p L + 1) % 2 = 1 := by omega
        simp [ho, this]
    · have hc : List.count p (a :: L) = List.count p L := by
        simp [List.count_cons, beq_iff_eq, (Ne.symm hpa : ¬(a = p))]
      rw [hc, updB, if_neg hpa]

/-- Collision component of the draw fold: when the toggled indices are
pairwise distinct, the final flag is the initial one ORed with "some
toggled index was set in the initial screen". -/
theorem foldl_drawStep_snd (L : List Nat) :
    ∀ (s0 : Nat → Bool) (b : Bool), L.Nodup →
      (L.foldl drawStep (s0, b)).2 = (b || L.any (fun i => s0 i)) := by
  induction L with
  | nil => intro s0 b _; simp
  | cons a L ih =>
    intro s0 b hnd
    have ha : a ∉ L := (List.nodup_cons.mp hnd).1
    have hL : L.Nodup := (List.nodup_cons.mp hnd).2
    rw [List.foldl_cons]
    rw [show drawStep (s0, b) a = (updB s0 a (!s0 a), b || s0 a) from rfl]
    rw [ih _ _ hL]
    have hany : L.any (fun i => updB s0 a (!s0 a) i) = L.any (fun i => s0 i) := by
      rw [Bool.eq_iff_iff, List.any_eq_true, List.any_eq_true]
      constructor
      · rintro ⟨i, hi, hv⟩
        refine ⟨i, hi, ?_⟩
        rwa [updB, if_neg (fun h : i = a => ha (h ▸ hi))] at hv
      · rintro ⟨i, hi, hv⟩
        refine ⟨i, hi, ?_⟩
        rwa [updB, if_neg (fun h : i = a => ha (h ▸ hi))]
    rw [hany, List.any_cons]
    cases b <;> cases s0 a <;> simp

/-- Membership in the toggle sequence is exactly the claim's description
of a set sprite bit targeting the pixel. -/
theorem mem_toggleList (s : Machine) (x y rows p : Nat) :
    p ∈ toggleList s x y rows ↔ spriteHits s x y rows p := by
  unfold toggleList spriteHits
  simp only [List.mem_flatMap, List.mem_filterMap, List.mem_range]
  constructor
  · rintro ⟨r, hr, c, hc, hsome⟩
    by_cases hb : (fetchByte s (s.i + r)).testBit (7 - c)
    · rw [if_pos hb] at hsome
      exact ⟨r, hr, c, hc, hb, Option.some_injective _ hsome⟩
    · rw [if_neg hb] at hsome; exact absurd hsome (by simp)
  · rintro ⟨r, hr, c, hc, hb, hpix⟩
    exact ⟨r, hr, c, hc, by rw [if_pos hb, hpix]⟩

/-- Rewriting of the inner filterMap of `toggleList` as a map over a
filter, to expose injectivity. -/
theorem filterMap_ite_eq_map_filter (P : Nat → Bool) (g : Nat → Nat) :
    ∀ l : List Nat,
      (l.filterMap (fun c => if P c then some (g c) else none)) =
        (l.filter P).map g := by
  intro l
  induction l with
  | nil => rfl
  | cons a l ih =>
    by_cases h : P a
    · rw [List.filterMap_cons, if_pos h, List.filter_cons, if_pos h,
        List.map_cons, ih]
    · rw [List.filterMap_cons, if_neg h, List.filter_cons, if_neg h, ih]

/-- Injectivity of the wrapped pixel index on the sprite grid: columns
below 8 and rows below 32 map to distinct indices. -/
theorem pixIdx_inj {x y c c' r r' : Nat} (hc : c < 8) (hc' : c' < 8)
    (hr : r < 32) (hr' : r' < 32) (h : pixIdx x y c r = pixIdx x y c' r') :
    c = c' ∧ r = r' := by
  unfold pixIdx at h
  have h1 : (x + c) % 64 < 64 := Nat.mod_lt _ (by omega)
  have h2 : (x + c') % 64 < 64 := Nat.mod_lt _ (by omega)
  have hx : (x + c) % 64 = (x + c') % 64 ∧ (y + r) % 32 = (y + r') % 32 := by
    omega
  omega

/-- Distinctness of the toggled indices for sprite heights up to 32. -/
theorem toggleList_nodup (s : Machine) (x y : Nat) :
    ∀ rows, rows ≤ 32 → (toggleList s x y rows).Nodup := by
  intro rows
  induction rows with
  | zero => intro _; simp [toggleList]
  | succ n ih =>
    intro hle
    unfold toggleList
    rw [List.range_succ, List.flatMap_append]
    rw [List.nodup_append]
    refine ⟨ih (by omega), ?_, ?_⟩
    · rw [List.flatMap_singleton,
        filterMap_ite_eq_map_filter _ (fun c => pixIdx x y c n)]
      refine List.Nodup.map_on ?_ ((List.nodup_range 8).filter _)
      intro c1 hc1 c2 hc2 heq
      have hb1 : c1 < 8 := List.mem_range.mp (List.mem_of_mem_filter hc1)
      have hb2 : c2 < 8 := List.mem_range.mp (List.mem_of_mem_filter hc2)
      exact (pixIdx_inj hb1 hb2 (by omega) (by omega) heq).1
    · intro p hp hp'
      rw [List.flatMap_singleton] at hp'
      rw [show (List.range n).flatMap (fun r => (List.range 8).filterMap
            (fun c => if (fetchByte s (s.i + r)).testBit (7 - c) then
              some (pixIdx x y c r) else none)) = toggleList s x y n from rfl]
        at hp
      obtain ⟨r, hr, c, hc, _, hpix⟩ := (mem_toggleList s x y n p).mp hp
      obtain ⟨c', hc', hsome⟩ := List.mem_filterMap.mp hp'
      have hc'8 : c' < 8 := List.mem_range.mp hc'
      by_cases hb : (fetchByte s (s.i + n)).testBit (7 - c')
      · rw [if_pos hb] at hsome
        have hpix' : pixIdx x y c' n = p := Option.some_injective _ hsome
        have := pixIdx_inj hc hc'8 (by omega) (by omega)
          (hpix.trans hpix'.symm)
        omega
      · rw [if_neg hb] at hsome; exact absurd hsome (by simp)

/-- Single-draw pixel characterization: each pixel ends as its initial
value XORed with the parity of the set sprite bits targeting it. -/
theorem opDrw_screen (s : Machine) (x y rows p : Nat) :
    (opDrw s x y rows).screen p =
      xor (s.screen p) (decide (List.count p (toggleList s x y rows) % 2 = 1)) :=
  foldl_drawStep_fst (toggleList s x y rows) s.screen false p

/-- Single-draw collision characterization for sprite heights up to 32:
VF is 1 exactly when some toggled pixel was set before the draw. -/
theorem opDrw_vf (s : Machine) (x y rows : Nat) (h : rows ≤ 32) :
    (opDrw s x y rows).v 15 =
      if (toggleList s x y rows).any (fun i => s.screen i) then 1 else 0 := by
  have h2 := foldl_drawStep_snd (toggleList s x y rows) s.screen false
    (toggleList_nodup s x y rows h)
  show (if ((toggleList s x y rows).foldl drawStep (s.screen, false)).2
        then (1 : Nat) else 0) = _
  rw [h2]
  simp

/-- C8: sprite drawing wraps toroidally — for a draw at (x, y) of height
`rows` (at most 32, which covers every height a D-opcode can request),
every pixel `p` of the row-major buffer ends as its pre-draw value XORed
with "some set sprite bit at row r, column c maps to `((x+c) mod 64,
(y+r) mod 32) = p`", so exactly the targeted pixels change. -/
theorem c8_draw_wraps (s : Machine) (x y rows : Nat) (h : rows ≤ 32) (p : Nat) :
    (opDrw s x y rows).screen p =
      xor (s.screen p) (decide (spriteHits s x y rows p)) := by
  rw [opDrw_screen]
  congr 1
  rw [decide_eq_decide]
  have hle := List.nodup_iff_count_le_one.mp (toggleList_nodup s x y rows h) p
  rw [← mem_toggleList]
  constructor
  · intro hc
    exact List.count_pos_iff.mp (by omega)
  · intro hm
    have := List.count_pos_iff.mpr hm
    omega

/-- Witness for C8: the height-1 sprite 0xFF drawn at (63, 31) on a clear
screen sets pixel (63, 31) (index 2047) and leaves pixel (7, 31) (index
1991, the column right after the wrapped ones) clear. -/
theorem c8_draw_wraps_witness :
    (1 : Nat) ≤ 32 ∧ (opDrw sWrap 63 31 1).screen 2047 = true ∧
      (opDrw sWrap 63 31 1).screen 1991 = false := by
  refine ⟨by norm_num, ?_, ?_⟩
  · rw [c8_draw_wraps sWrap 63 31 1 (by norm_num) 2047]
    decide
  · rw [c8_draw_wraps sWrap 63 31 1 (by norm_num) 1991]
    decide

/-- Counterexample to C7: with a non-empty sprite (byte 0x80 at I) whose
only target pixel is set before the first draw, the double draw restores
the buffer but VF after the second draw is 0, not 1 as the claim states
for any non-empty sprite. -/
theorem c7_counterexample :
    (fetchByte sDrwC (sDrwC.i + 0)).testBit (7 - 0) = true ∧
    (opDrw (opDrw sDrwC 0 0 1) 0 0 1).screen 0 = sDrwC.screen 0 ∧
    (opDrw (opDrw sDrwC 0 0 1) 0 0 1).v 15 = 0 := by
  refine ⟨by decide, by decide, by decide⟩

/-- C7 (amended): for heights up to 32 (covering every height a D-opcode
can request), drawing the identical sprite twice at the identical
location with unchanged memory restores the pre-draw pixel buffer
exactly, and VF after the second draw is 1 exactly when some set sprite
bit targets a pixel that was clear before the first draw (for a sprite
drawn on a clear region this coincides with the sprite being non-empty,
but not for arbitrary pre-draw buffers). -/
theorem c7_double_draw_amended (s : Machine) (x y rows : Nat) (h : rows ≤ 32) :
    (∀ p, (opDrw (opDrw s x y rows) x y rows).screen p = s.screen p) ∧
    ((opDrw (opDrw s x y rows) x y rows).v 15 =
      if flipsOffTarget s x y rows then 1 else 0) := by
  have hLeq : toggleList (opDrw s x y rows) x y rows = toggleList s x y rows := rfl
  have hnd := toggleList_nodup s x y rows h
  constructor
  · intro p
    rw [opDrw_screen, opDrw_screen, hLeq, Bool.xor_assoc, Bool.xor_self,
      Bool.xor_false]
  · rw [opDrw_vf _ x y rows h, hLeq]
    have hcond : ((toggleList s x y rows).any
        (fun i => (opDrw s x y rows).screen i) = true) ↔
        flipsOffTarget s x y rows := by
      unfold flipsOffTarget
      rw [List.any_eq_true]
      constructor
      · rintro ⟨i, hiL, hv⟩
        have hcount : List.count i (toggleList s x y rows) = 1 :=
          List.count_eq_one_of_mem hnd hiL
        rw [opDrw_screen, hcount] at hv
        simp at hv
        obtain ⟨r, hr, c, hc, hb, hpix⟩ := (mem_toggleList s x y rows i).mp hiL
        refine ⟨r, hr, c, hc, hb, ?_⟩
        rw [hpix]
        exact hv
      · rintro ⟨r, hr, c, hc, hb, hscr⟩
        have hmem : pixIdx x y c r ∈ toggleList s x y rows :=
          (mem_toggleList s x y rows _).mpr ⟨r, hr, c, hc, hb, rfl⟩
        refine ⟨pixIdx x y c r, hmem, ?_⟩
        rw [opDrw_screen, List.count_eq_one_of_mem hnd hmem]
        simp [hscr]
    exact if_congr hcond rfl rfl

/-- Witness for C7 (amended): the concrete double draw of `sDrwC`
restores pixel 0 and yields VF = 0 because the sole targeted pixel was
set pre-draw. -/
theorem c7_double_draw_amended_witness :
    (1 : Nat) ≤ 32 ∧ (opDrw (opDrw sDrwC 0 0 1) 0 0 1).screen 5 = sDrwC.screen 5 ∧
      (opDrw (opDrw sDrwC 0 0 1) 0 0 1).v 15 = 0 := by
  refine ⟨by norm_num, (c7_double_draw_amended sDrwC 0 0 1 (by norm_num)).1 5, ?_⟩
  rw [(c7_double_draw_amended sDrwC 0 0 1 (by norm_num)).2]
  decide

/-- C1 (divergence): the SNE handler skips when Vx equals nn and does not
skip when they differ — the opposite of the claimed (and documented)
condition.  With V3 = 5, opcode 0x4305 (nn = 5, equal) advances the
program counter by 2 while opcode 0x4303 (nn = 3, different) leaves it
unchanged. -/
theorem c1_sne_divergence :
    (opSne sSne 0x4305 3).pc = sSne.pc + 2 ∧
      (opSne sSne 0x4303 3).pc = sSne.pc ∧ sSne.v 3 = 5 := by
  refine ⟨by decide, by decide, by decide⟩

/-- Counterexample to C3: a timer tick with the sound timer equal to 1
hits `unimplemented!` (a process abort, modelled as `none`) instead of
completing normally with the decrement to 0. -/
theorem c3_counterexample :
    tickTimers { initState with delay := 5, sound := 1 } = none := rfl

/-- C3 (amended): the timer tick aborts exactly when the sound timer is 1
(the unimplemented audio-cue hook); in every other case it completes
normally, decrementing each nonzero timer by 1, leaving zero timers at 0,
and touching nothing else. -/
theorem c3_timer_tick_amended (s : Machine) :
    (tickTimers s = none ↔ s.sound = 1) ∧
    (s.sound ≠ 1 →
      ∃ s', tickTimers s = some s' ∧
        s'.delay = s.delay - 1 ∧ (s.delay = 0 → s'.delay = 0) ∧
        s'.sound = s.sound - 1 ∧ (s.sound = 0 → s'.sound = 0) ∧
        s'.pc = s.pc ∧ s'.v = s.v ∧ s'.ram = s.ram ∧ s'.screen = s.screen ∧
        s'.sp = s.sp ∧ s'.stack = s.stack ∧ s'.keys = s.keys) := by
  unfold tickTimers
  by_cases hd : 0 < s.delay <;> by_cases hs : 0 < s.sound <;>
    by_cases h1 : s.sound = 1 <;>
      simp [hd, hs, h1] <;> omega

/-- Witness for C3 (amended): at delay 5 and sound 3 the tick completes
with delay 4 and sound 2. -/
theorem c3_timer_tick_amended_witness :
    ∃ s', tickTimers { initState with delay := 5, sound := 3 } = some s' ∧
      s'.delay = 4 ∧ s'.sound = 2 := by
  obtain ⟨s', h, hd, _, hs, _, _⟩ :=
    (c3_timer_tick_amended { initState with delay := 5, sound := 3 }).2
      (by decide)
  exact ⟨s', h, by simpa using hd, by simpa using hs⟩

/-- C4: register-to-register ADD stores the wrapped 8-bit sum in Vx and
then writes the carry (1 iff the true sum reaches 256) into VF, so when
VF is the destination the flag value overwrites the sum; all other
registers and all other machine state are untouched. -/
theorem c4_reg_add (s : Machine) (x y : Nat) (hx : x < 16) (hy : y < 16)
    (ha : s.v x < 256) (hb : s.v y < 256) :
    (opRegAdd s x y).v 15 = (if 256 ≤ s.v x + s.v y then 1 else 0) ∧
    (x ≠ 15 → (opRegAdd s x y).v x = (s.v x + s.v y) % 256) ∧
    (∀ z, z ≠ x → z ≠ 15 → (opRegAdd s x y).v z = s.v z) ∧
    (opRegAdd s x y).pc = s.pc ∧ (opRegAdd s x y).i = s.i ∧
    (opRegAdd s x y).sp = s.sp ∧ (opRegAdd s x y).stack = s.stack ∧
    (opRegAdd s x y).ram = s.ram ∧ (opRegAdd s x y).delay = s.delay ∧
    (opRegAdd s x y).sound = s.sound ∧ (opRegAdd s x y).screen = s.screen := by
  unfold opRegAdd updF
  refine ⟨by simp, fun hx15 => ?_, fun z hzx hz15 => ?_, rfl, rfl, rfl, rfl,
    rfl, rfl, rfl, rfl⟩
  · simp [hx15]
  · simp [hzx, hz15]

/-- Witness for C4: V1 = 200, V2 = 100 gives V1 = 44 and VF = 1. -/
theorem c4_reg_add_witness :
    (opRegAdd { initState with v := updF (updF initState.v 1 200) 2 100 } 1 2).v 1
        = 44 ∧
    (opRegAdd { initState with v := updF (updF initState.v 1 200) 2 100 } 1 2).v 15
        = 1 := by
  have h := c4_reg_add { initState with v := updF (updF initState.v 1 200) 2 100 }
    1 2 (by norm_num) (by norm_num) (by decide) (by decide)
  refine ⟨?_, ?_⟩
  · rw [h.2.1 (by norm_num)]; decide
  · rw [h.1]; decide

/-- C5: SUB stores the wrapped difference Vx − Vy in Vx with VF = 1 iff
Vx ≥ Vy (no borrow), and the reverse variant stores Vy − Vx in Vx with
VF = 1 iff Vy ≥ Vx; the flag write lands after the result write. -/
theorem c5_reg_sub (s : Machine) (x y : Nat) (hx : x < 16) (hy : y < 16)
    (ha : s.v x < 256) (hb : s.v y < 256) :
    ((opRegSub s x y false).v 15 = if s.v y ≤ s.v x then 1 else 0) ∧
    (x ≠ 15 → (opRegSub s x y false).v x = (s.v x + 256 - s.v y) % 256) ∧
    ((opRegSub s x y true).v 15 = if s.v x ≤ s.v y then 1 else 0) ∧
    (x ≠ 15 → (opRegSub s x y true).v x = (s.v y + 256 - s.v x) % 256) ∧
    (∀ z, z ≠ x → z ≠ 15 → (opRegSub s x y false).v z = s.v z ∧
      (opRegSub s x y true).v z = s.v z) ∧
    (opRegSub s x y false).pc = s.pc ∧ (opRegSub s x y false).ram = s.ram := by
  unfold opRegSub updF
  refine ⟨?_, fun hx15 => by simp [hx15], ?_, fun hx15 => by simp [hx15],
    fun z hzx hz15 => ⟨by simp [hzx, hz15], by simp [hzx, hz15]⟩, rfl, rfl⟩
  · by_cases hc : s.v x < s.v y
    · simp [hc, Nat.not_le.mpr hc]
    · simp [hc, Nat.not_lt.mp hc]
  · by_cases hc : s.v y < s.v x
    · simp [hc, Nat.not_le.mpr hc]
    · simp [hc, Nat.not_lt.mp hc]

/-- Witness for C5: V1 = 10, V2 = 30 gives V1 = 236 and VF = 0 for the
plain variant (borrow occurred). -/
theorem c5_reg_sub_witness :
    (opRegSub { initState with v := updF (updF initState.v 1 10) 2 30 } 1 2
        false).v 1 = 236 ∧
    (opRegSub { initState with v := updF (updF initState.v 1 10) 2 30 } 1 2
        false).v 15 = 0 := by
  have h := c5_reg_sub { initState with v := updF (updF initState.v 1 10) 2 30 }
    1 2 (by norm_num) (by norm_num) (by decide) (by decide)
  refine ⟨?_, ?_⟩
  · rw [h.2.1 (by norm_num)]; decide
  · rw [h.1]; decide

/-- C6 (divergence): ADD-with-immediate is a bare checked `+=`, so an
overflowing pair (V0 = 255, nn = 1) is an overflow panic (`none`) rather
than a wrap to 0; a non-overflowing pair completes and adds. -/
theorem c6_add_immediate_overflow :
    opAdd sAddOv 0x7001 0 = none ∧ sAddOv.v 0 = 255 ∧
      opAdd initState 0x7005 0 =
        some { initState with v := updF initState.v 0 5 } := by
  exact ⟨rfl, rfl, rfl⟩

/-- C10: CALL pushes the current program counter at the stack-pointer
slot, increments the stack pointer and jumps to nnn; an immediately
following RET pops that address back into the program counter, restoring
it exactly and leaving registers, RAM and the screen (and the timers)
unchanged. -/
theorem c10_call_ret (s : Machine) (op : Nat) (h : s.sp < 16) :
    ∃ s1, opCall s op = .ok s1 ∧ s1.pc = nnnOf op ∧
      s1.stack s.sp = s.pc ∧ s1.sp = s.sp + 1 ∧
      ∃ s2, opRet s1 = .ok s2 ∧ s2.pc = s.pc ∧ s2.sp = s.sp ∧
        s2.v = s.v ∧ s2.ram = s.ram ∧ s2.screen = s.screen ∧
        s2.delay = s.delay ∧ s2.sound = s.sound ∧ s2.i = s.i := by
  refine ⟨{ s with stack := updF s.stack s.sp s.pc, sp := s.sp + 1, pc := nnnOf op },
    by rw [opCall, if_pos h], rfl, by simp [updF], rfl, ?_⟩
  refine ⟨{ s with stack := updF s.stack s.sp s.pc, sp := s.sp + 1 - 1, pc := updF s.stack s.sp s.pc (s.sp + 1 - 1) },
    by rw [opRet]; simp, by simp [updF], by simp, rfl, rfl, rfl, rfl, rfl, rfl⟩

/-- Witness for C10: from pc = 0x234 and an empty stack, CALL 0x456 then
RET restores pc = 0x234. -/
theorem c10_call_ret_witness :
    ∃ s1, opCall { initState with pc := 0x234 } 0x2456 = .ok s1 ∧
      s1.pc = 0x456 ∧ ∃ s2, opRet s1 = .ok s2 ∧ s2.pc = 0x234 := by
  obtain ⟨s1, h1, hpc, _, _, s2, h2, hpc2, _⟩ :=
    c10_call_ret { initState with pc := 0x234 } 0x2456 (by decide)
  exact ⟨s1, h1, by simpa using hpc, s2, h2, by simpa using hpc2⟩

/-- Counterexample to C2: opcode 0x8122 has first nibble 8 and last
nibble 2, outside the documented 8-family set, yet it is not treated as
an undocumented pattern: the `(8, _, _, _)` catch-all dispatches it to
the register-load handler and execution succeeds. -/
theorem c2_counterexample :
    decodeArm 0x8122 = ExecArm.regLd ∧ decodeArm 0x8122 ≠ ExecArm.invalid ∧
      execute initState 0x8122 =
        .ok { initState with v := updF initState.v 1 (initState.v 2) } := by
  exact ⟨rfl, by decide, rfl⟩

/-- C2 (amended): patterns reaching the ordered match's fallback arm abort
via `unimplemented!` (modelled as the UnsupportedOpcode outcome); no
opcode with first nibble 8 reaches the fallback — last nibbles outside
{1,4,5,6,7,E} dispatch to the register-load handler — and the documented
BCD pattern Fx33 is absent from the match and reaches the fallback. -/
theorem c2_dispatch_amended :
    (∀ (s : Machine) (op : Nat), decodeArm op = ExecArm.invalid →
      execute s op = .error .unsupportedOpcode) ∧
    (∀ op : Nat, nib1 op = 8 → decodeArm op ≠ ExecArm.invalid) ∧
    (∀ op : Nat, nib1 op = 8 → nib4 op ≠ 1 → nib4 op ≠ 4 → nib4 op ≠ 5 →
      nib4 op ≠ 6 → nib4 op ≠ 7 → nib4 op ≠ 0xE →
      decodeArm op = ExecArm.regLd) ∧
    (∀ op : Nat, nib1 op = 0xF → nib3 op = 3 → nib4 op = 3 →
      decodeArm op = ExecArm.invalid) := by
  refine ⟨?_, ?_, ?_, ?_⟩
  · intro s op h
    unfold execute
    rw [h]
    rfl
  · intro op h
    have hlt : nib4 op < 16 := Nat.mod_lt _ (by omega)
    unfold decodeArm
    rw [h]
    interval_cases h4 : nib4 op <;> simp
  · intro op h h1 h4 h5 h6 h7 hE
    have hlt : nib4 op < 16 := Nat.mod_lt _ (by omega)
    unfold decodeArm
    rw [h]
    interval_cases hv : nib4 op <;> simp_all
  · intro op h1 h3 h4
    unfold decodeArm
    rw [h1, h3, h4]

/-- Witness for C2 (amended): Fx33 with x = 1 reaches the fallback and
0x8233 dispatches to the register-load handler. -/
theorem c2_dispatch_amended_witness :
    execute initState 0xF133 = .error .unsupportedOpcode ∧
      decodeArm 0x8233 = ExecArm.regLd := by
  refine ⟨c2_dispatch_amended.1 initState 0xF133
    (c2_dispatch_amended.2.2.2 0xF133 (by decide) (by decide) (by decide)), ?_⟩
  exact c2_dispatch_amended.2.2.1 0x8233 (by decide) (by decide) (by decide)
    (by decide) (by decide) (by decide) (by decide)

/-- Ascending key scan finds nothing when no key in range is pressed. -/
theorem scanKeys_eq_none (keys : Nat → Bool) :
    ∀ fuel start : Nat,
      (∀ j, start ≤ j → j < start + fuel → keys j = false) →
      scanKeys keys fuel start = none := by
  intro fuel
  induction fuel with
  | zero => intro start _; rfl
  | succ n ih =>
    intro start h
    rw [show scanKeys keys (n + 1) start =
      if keys start then some start else scanKeys keys n (start + 1) from rfl]
    rw [h start (Nat.le_refl _) (by omega)]
    exact ih (start + 1) (fun j h1 h2 => h j (by omega) (by omega))

/-- Ascending key scan returns the first pressed index in range. -/
theorem scanKeys_eq_some (keys : Nat → Bool) :
    ∀ fuel start k : Nat, start ≤ k → k < start + fuel → keys k = true →
      (∀ j, start ≤ j → j < k → keys j = false) →
      scanKeys keys fuel start = some k := by
  intro fuel
  induction fuel with
  | zero => intro start k h1 h2 _ _; exact absurd h1 (by omega)
  | succ n ih =>
    intro start k h1 h2 hk hmin
    rw [show scanKeys keys (n + 1) start =
      if keys start then some start else scanKeys keys n (start + 1) from rfl]
    by_cases hs : start = k
    · subst hs
      rw [hk]
      rfl
    · rw [hmin start (Nat.le_refl _) (by omega)]
      exact ih (start + 1) k (by omega) (by omega) hk
        (fun j hj1 hj2 => hmin j (by omega) hj2)

/-- C9: when the fetched opcode is Fx0A (key wait), a tick with no key
pressed leaves the program counter at its pre-tick value (advance by 2 in
fetch, rewind by 2 in the handler), writes no register, and re-fetches
the same instruction next tick; with keys pressed, the lowest pressed
index is written into Vx and the advanced program counter stands. -/
theorem c9_key_wait (s : Machine) (x : Nat) (hx : x < 16)
    (hop : fetchWord s s.pc = 0xF00A + 256 * x) :
    ((∀ i, i < 16 → s.keys i = false) →
      ∃ s', tick s = .ok s' ∧ s'.pc = s.pc ∧ s'.v = s.v ∧ s'.ram = s.ram ∧
        fetchWord s' s'.pc = fetchWord s s.pc) ∧
    (∀ k, k < 16 → s.keys k = true → (∀ j, j < k → s.keys j = false) →
      ∃ s', tick s = .ok s' ∧ s'.pc = s.pc + 2 ∧ s'.v x = k ∧
        (∀ z, z ≠ x → s'.v z = s.v z)) := by
  have e1 : nib1 (0xF00A + 256 * x) = 0xF := by unfold nib1; omega
  have e2 : nib2 (0xF00A + 256 * x) = x := by unfold nib2; omega
  have e3 : nib3 (0xF00A + 256 * x) = 0 := by unfold nib3; omega
  have e4 : nib4 (0xF00A + 256 * x) = 0xA := by unfold nib4; omega
  have hdec : decodeArm (0xF00A + 256 * x) = ExecArm.ldWait := by
    unfold decodeArm
    rw [e1, e3, e4]
  have htick : tick s = .ok (opLdWait { s with pc := s.pc + 2 } x) := by
    show execute { s with pc := s.pc + 2 } (fetchWord s s.pc) = _
    rw [hop]
    unfold execute
    rw [hdec]
    show Except.ok (opLdWait _ (nib2 (0xF00A + 256 * x))) = _
    rw [e2]
  constructor
  · intro hno
    have hscan : scanKeys s.keys 16 0 = none :=
      scanKeys_eq_none s.keys 16 0 (fun j _ hj => hno j (by omega))
    have hwait : opLdWait { s with pc := s.pc + 2 } x =
        { s with pc := s.pc + 2 - 2 } := by
      unfold opLdWait
      rw [show ({ s with pc := s.pc + 2 } : Machine).keys = s.keys from rfl,
        hscan]
    refine ⟨{ s with pc := s.pc + 2 - 2 }, by rw [htick, hwait], by simp, rfl,
      rfl, ?_⟩
    show fetchWord { s with pc := s.pc + 2 - 2 } (s.pc + 2 - 2) =
      fetchWord s s.pc
    simp only [Nat.add_sub_cancel]
  · intro k hk hkey hmin
    have hscan : scanKeys s.keys 16 0 = some k :=
      scanKeys_eq_some s.keys 16 0 k (by omega) (by omega) hkey
        (fun j _ hj => hmin j hj)
    have hwait : opLdWait { s with pc := s.pc + 2 } x =
        { s with pc := s.pc + 2, v := updF s.v x k } := by
      unfold opLdWait
      rw [show ({ s with pc := s.pc + 2 } : Machine).keys = s.keys from rfl,
        hscan]
    exact ⟨_, by rw [htick, hwait], rfl, by simp [updF],
      fun z hz => by simp [updF, hz]⟩

/-- Witness for C9: with the program F30A at 0x200 and no key pressed,
one tick leaves the program counter at 0x200. -/
theorem c9_key_wait_witness :
    ∃ s', tick sWait = .ok s' ∧ s'.pc = 0x200 := by
  obtain ⟨s', h1, h2, _⟩ :=
    (c9_key_wait sWait 3 (by norm_num) (by decide)).1 (fun i _ => rfl)
  exact ⟨s', h1, h2.trans (by decide)⟩

end Chip8
